import Mathlib

/-!
Verification model of the BookTracker daily reading dashboard (`main.py`).

Dates are modelled as proleptic-Gregorian ordinals (`Nat`, Python's
`date.toordinal`) for the log/statistics pipeline, and as year/day-of-year
pairs (`CDate`) for the calendar-heatmap projection.  Pandas dataframes are
modelled as lists of rows or records of columns; in-place column assignment
is made explicit by returning the updated frame.
-/

namespace BookTracker

/-! ## Streak calculator (`calculate_streak`) -/

/-- The boolean flag column for all rows after the first: a row is flagged
when its pages meet the goal and its date is exactly one day after the
previous row's date (`(df.pages >= daily_goal) & (df.date.diff().dt.days == 1)`). -/
def flagsAux (goal : Nat) (prev : Nat × Nat) : List (Nat × Nat) → List Bool
  | [] => []
  | y :: ys => (decide (goal ≤ y.2) && decide (y.1 = prev.1 + 1)) :: flagsAux goal y ys

/-- The whole flag column; the first row's date difference is `NaN`, so its
flag is `False`. -/
def streakFlags (goal : Nat) : List (Nat × Nat) → List Bool
  | [] => []
  | x :: xs => false :: flagsAux goal x xs

/-- Running cumulative sum of a boolean column (`cumsum`). -/
def cumsumFrom (acc : Nat) : List Bool → List Nat
  | [] => []
  | b :: bs =>
    let a := acc + (if b then 1 else 0)
    a :: cumsumFrom a bs

/-- `df.sort_values('date')`: sort rows ascending by date. -/
def sortByDate (df : List (Nat × Nat)) : List (Nat × Nat) :=
  List.insertionSort (fun a b => a.1 ≤ b.1) df

/-- The `df['streak']` column: cumulative sum of the flag column over the
date-sorted rows. -/
def streakCol (goal : Nat) (df : List (Nat × Nat)) : List Nat :=
  cumsumFrom 0 (streakFlags goal (sortByDate df))

/-- `calculate_streak(df, daily_goal)`: sort rows by date, flag rows meeting
the goal on a date consecutive to the previous row, take the cumulative sum
as the streak column, read the current value off the last row (zero when the
last row misses the goal), and return both the current value and the column
maximum, each incremented by one. -/
def calculate_streak (df : List (Nat × Nat)) (daily_goal : Nat) : Nat × Nat :=
  let s := sortByDate df
  let cs := streakCol daily_goal df
  let current_streak :=
    if daily_goal ≤ ((s.getLast?).map Prod.snd).getD 0 then (cs.getLast?).getD 0 else 0
  (current_streak + 1, (cs.foldl max 0) + 1)

/-! ## Aggregator (`get_daily_stats`: `groupby('date', as_index=False).sum()`) -/

/-- Total pages carried by the rows of a given date. -/
def valAt (l : List (Nat × Nat)) (d : Nat) : Nat :=
  ((l.filter (fun r => r.1 == d)).map Prod.snd).sum

/-- The date column of a list of rows. -/
def datesOf (l : List (Nat × Nat)) : List Nat := l.map Prod.fst

/-- Add one row's pages into the running per-date accumulator. -/
def upsert : List (Nat × Nat) → Nat → Nat → List (Nat × Nat)
  | [], d, p => [(d, p)]
  | q :: qs, d, p => if q.1 = d then (q.1, q.2 + p) :: qs else q :: upsert qs d p

/-- Group the rows by date, summing pages within each date group. -/
def groupPairs (rows : List (Nat × Nat)) : List (Nat × Nat) :=
  rows.foldl (fun acc r => upsert acc r.1 r.2) []

/-- `daily_log.groupby('date', as_index=False).sum()`: one row per distinct
date with the pages summed within the date, rows ordered by date ascending. -/
def group_by_date_sum (rows : List (Nat × Nat)) : List (Nat × Nat) :=
  List.insertionSort (fun a b => a.1 ≤ b.1) (groupPairs rows)

/-! ## Stats summarizer (`get_daily_stats`) -/

/-- A date cell of the `daily_log` dataframe: either the raw ISO string
read from the CSV (denoting calendar date `d`) or an already-parsed
`datetime.date` object. -/
inductive DateVal
  | raw (d : Nat)
  | parsed (d : Nat)
deriving DecidableEq, Repr

/-- `pd.to_datetime(cell).dt.date`: the calendar date a cell denotes. -/
def parseCell : DateVal → Nat
  | .raw d => d
  | .parsed d => d

/-- The in-memory `daily_log` dataframe: one (date cell, pages) pair per
logged session. -/
structure RawLog where
  rows : List (DateVal × Nat)
deriving DecidableEq, Repr

/-- The log rows with the date column parsed to calendar dates. -/
def parsedRows (l : RawLog) : List (Nat × Nat) :=
  l.rows.map (fun r => (parseCell r.1, r.2))

/-- `Series.mean()`: arithmetic mean of a pages column, as a rational. -/
def meanQ (l : List Nat) : ℚ := (l.sum : ℚ) / (l.length : ℚ)

/-- `Series.tail(n)`: the last `n` entries of a column (all of them when
fewer than `n` exist). -/
def lastN (n : Nat) (l : List Nat) : List Nat := l.drop (l.length - n)

/-- The dictionary returned by `get_daily_stats`. -/
structure Stats where
  total_pages : Nat
  avg_pages_per_day : ℚ
  avg_pages_last_week : ℚ
  grouped_log : List (Nat × Nat)
deriving DecidableEq, Repr

/-- `get_daily_stats(daily_log)`: `None` on an empty log; otherwise the
date column is overwritten in place with parsed calendar dates (the updated
frame is the first component), the log is grouped by date with pages
summed, and the totals, the mean over all grouped days, and the mean of the
last seven grouped rows are derived. -/
def get_daily_stats (daily_log : RawLog) : RawLog × Option Stats :=
  if daily_log.rows.isEmpty then (daily_log, none)
  else
    let updated : RawLog :=
      ⟨daily_log.rows.map (fun r => (DateVal.parsed (parseCell r.1), r.2))⟩
    let g := group_by_date_sum (parsedRows daily_log)
    (updated,
      some { total_pages := (g.map Prod.snd).sum,
             avg_pages_per_day := meanQ (g.map Prod.snd),
             avg_pages_last_week := meanQ (lastN 7 (g.map Prod.snd)),
             grouped_log := g })

def rawLogW : RawLog := ⟨[(DateVal.raw 1, 2), (DateVal.raw 2, 4), (DateVal.raw 3, 6)]⟩

def statsW : Stats :=
  { total_pages := 12, avg_pages_per_day := 4, avg_pages_last_week := 4,
    grouped_log := [(1, 2), (2, 4), (3, 6)] }

/-! ## Calendar heatmap projection (`create_heatmap_view`) -/

/-- A calendar date as its year and 1-based day of year. -/
structure CDate where
  year : Nat
  doy : Nat
deriving DecidableEq, Repr

/-- Gregorian leap-year test. -/
def isLeap (y : Nat) : Bool := (y % 4 == 0 && y % 100 != 0) || (y % 400 == 0)

/-- Days in a calendar year. -/
def daysInYear (y : Nat) : Nat := if isLeap y then 366 else 365

/-- Proleptic-Gregorian ordinal of January 1st of year `y`
(Python's `date(y, 1, 1).toordinal()`; ordinal 1 is 0001-01-01, a Monday). -/
def jan1Ordinal (y : Nat) : Nat :=
  365 * (y - 1) + (y - 1) / 4 - (y - 1) / 100 + (y - 1) / 400 + 1

/-- Ordinal of a date. -/
def ordinalOf (d : CDate) : Nat := jan1Ordinal d.year + d.doy - 1

/-- `.dt.weekday`: Monday = 0 … Sunday = 6. -/
def weekdayOf (d : CDate) : Nat := (ordinalOf d - 1) % 7

/-- Ordinal of the Monday opening ISO week 1 of year `y` (the Monday of
the week containing January 4th). -/
def week1monday (y : Nat) : Nat :=
  let j4 := jan1Ordinal y + 3
  j4 - (j4 - 1) % 7

/-- `.dt.isocalendar().week`: the ISO-8601 week number of a date. -/
def isoWeek (d : CDate) : Nat :=
  let o := ordinalOf d
  if o < week1monday d.year then (o - week1monday (d.year - 1)) / 7 + 1
  else if week1monday (d.year + 1) ≤ o then 1
  else (o - week1monday d.year) / 7 + 1

/-- One rendered heatmap cell: week column (`x`), weekday row (`y`) and
pages value (`z`). -/
structure HeatCell where
  week : Nat
  day_of_week : Nat
  pages : Nat
deriving DecidableEq, Repr

/-- `pd.date_range(f"{YEAR}-01-01", f"{YEAR}-12-31", freq='D')`. -/
def allDaysOfYear (y : Nat) : List CDate :=
  (List.range (daysInYear y)).map (fun i => ⟨y, i + 1⟩)

/-- The join predicate of
`pd.merge(all_days, df, on=['day_of_year', 'week', 'day_of_week'])`. -/
def rowMatches (d : CDate) (r : CDate × Nat) : Bool :=
  r.1.doy == d.doy && isoWeek r.1 == isoWeek d && weekdayOf r.1 == weekdayOf d

/-- The merged full-year table: every calendar day of the target year,
left-joined against the aggregated log rows on the three key columns;
matched rows keep their pages (`pages_right`), unmatched days fall back to
the zero default (`pages_left`, then `fillna(0)`). -/
def mergedRows (y : Nat) (df : List (CDate × Nat)) : List HeatCell :=
  ((allDaysOfYear y).map (fun d =>
    let ms := df.filter (rowMatches d)
    if ms.isEmpty then [⟨isoWeek d, weekdayOf d, 0⟩]
    else ms.map (fun r => ⟨isoWeek d, weekdayOf d, r.2⟩))).flatten

/-- A date cell of the grouped frame: a `datetime.date` object before
`pd.to_datetime`, a `Timestamp` after it. -/
inductive HDateCell
  | dateObj (d : CDate)
  | ts (d : CDate)
deriving DecidableEq, Repr

/-- The calendar date a heatmap date cell denotes. -/
def hcellDate : HDateCell → CDate
  | .dateObj d => d
  | .ts d => d

/-- The grouped dataframe handed to `create_heatmap_view`: its date and
pages columns plus the three derived columns once assigned (`none` while
absent, as on the caller's `DailySeries`). -/
structure HeatDF where
  date : List HDateCell
  pages : List Nat
  day_of_year : Option (List Nat)
  week : Option (List Nat)
  day_of_week : Option (List Nat)
deriving DecidableEq, Repr

/-- `create_heatmap_view(df)` with target year `y`: the column assignments
`df['date'] = pd.to_datetime(df['date'])`, `df['day_of_year'] = …`,
`df['week'] = …`, `df['day_of_week'] = …` land on the caller's frame
(returned as the first component); the second component is the merged
full-year cell list fed to `go.Heatmap`. -/
def create_heatmap_view (y : Nat) (df : HeatDF) : HeatDF × List HeatCell :=
  let ds := df.date.map hcellDate
  let df' : HeatDF :=
    { date := ds.map HDateCell.ts,
      pages := df.pages,
      day_of_year := some (ds.map CDate.doy),
      week := some (ds.map isoWeek),
      day_of_week := some (ds.map weekdayOf) }
  (df', mergedRows y (ds.zip df.pages))

/-- The cell the single-entry merge produces for calendar day `dd` when the
lone logged day is `d0` with `p` pages. -/
def cellFor (d0 : CDate) (p : Nat) (dd : CDate) : HeatCell :=
  if d0 = dd then ⟨isoWeek d0, weekdayOf d0, p⟩ else ⟨isoWeek dd, weekdayOf dd, 0⟩

/-! ## Daily log form (`log_daily_reading` and the `daily_log_form` handler) -/

/-- The state touched by a log submission: the in-memory `daily_log` rows
and the persisted `daily_reading_log.csv` rows. -/
structure AppState where
  daily_log : List (Nat × Nat)
  log_file : List (Nat × Nat)
deriving DecidableEq, Repr

/-- Outcome shown to the user by the form handler. -/
inductive SubmitResult
  | success
  | errorFutureDate
deriving DecidableEq, Repr

/-- `log_daily_reading(daily_log, log_date, pages)`: append the new row to
the in-memory log and rewrite the whole log file with the result; returns
(updated in-memory log, file contents written). -/
def log_daily_reading (daily_log : List (Nat × Nat)) (log_date pages : Nat) :
    List (Nat × Nat) × List (Nat × Nat) :=
  let updated_log := daily_log ++ [(log_date, pages)]
  (updated_log, updated_log)

/-- The `daily_log_form` submit handler: accept and persist the entry when
its date is on or before today, otherwise show an error and change
nothing. -/
def daily_log_form (st : AppState) (today log_date pages : Nat) :
    AppState × SubmitResult :=
  if log_date ≤ today then
    let r := log_daily_reading st.daily_log log_date pages
    ({ daily_log := r.1, log_file := r.2 }, SubmitResult.success)
  else (st, SubmitResult.errorFutureDate)

/-! ## Book metadata lookup (`search_book_info` and the add-book form) -/

/-- One element of the `docs` array of the Open Library search response. -/
structure Doc where
  key : String
  cover_i : Option Nat
  title : String
  author_name : List String
deriving DecidableEq, Repr

/-- The HTTP response of the title search. -/
structure ApiResponse where
  status_code : Nat
  docs : List Doc
deriving DecidableEq, Repr

/-- The dictionary `search_book_info` builds from the first doc. -/
structure BookInfo where
  raw_info : String
  url : String
  title : String
  author : String
  cover_url : Option String
deriving DecidableEq, Repr

/-- `', '.join(xs)`. -/
def joinAuthors : List String → String
  | [] => ""
  | [a] => a
  | a :: rest => a ++ ", " ++ joinAuthors rest

/-- `search_book_info(title)` applied to the response of the GET request:
`None` unless the status is 200 and `docs` is non-empty, otherwise the
fields extracted from the first doc. -/
def search_book_info (searchTitle : String) (resp : ApiResponse) : Option BookInfo :=
  if resp.status_code = 200 then
    match resp.docs with
    | [] => none
    | b :: _ =>
      some { raw_info := "https://openlibrary.org/search.json?title=" ++ searchTitle,
             url := "https://openlibrary.org" ++ b.key,
             title := b.title,
             author := joinAuthors b.author_name,
             cover_url := b.cover_i.map
               (fun cid => "https://covers.openlibrary.org/b/id/" ++ toString cid ++ "-L.jpg") }
  else none

/-- The search-related keys of `st.session_state`; the outer `Option` is
key absence, the inner one (for `cover_url`) a stored Python `None`. -/
structure SearchSession where
  raw_info : Option String
  url : Option String
  title : Option String
  author : Option String
  cover_url : Option (Option String)
deriving DecidableEq, Repr

/-- Outcome of the add-book search form. -/
inductive SearchOutcome
  | found
  | notFoundWarning
deriving DecidableEq, Repr

/-- The `add_book` form handler after the search button: store the found
book's fields in the session, or warn and leave the session untouched. -/
def handle_search (sess : SearchSession) (searchTitle : String) (resp : ApiResponse) :
    SearchSession × SearchOutcome :=
  match search_book_info searchTitle resp with
  | some info =>
    ({ raw_info := some info.raw_info, url := some info.url, title := some info.title,
       author := some info.author, cover_url := some info.cover_url },
     SearchOutcome.found)
  | none => (sess, SearchOutcome.notFoundWarning)

def strR : String := "r"

def sessW : SearchSession :=
  { raw_info := some strR, url := some strR, title := some strR,
    author := some strR, cover_url := some none }

def titleW : String := "dune"

/-! ## Supporting lemmas -/

lemma flagsAux_all_false (goal : Nat) :
    ∀ (l : List (Nat × Nat)) (prev : Nat × Nat), (∀ x ∈ l, x.2 < goal) →
      flagsAux goal prev l = List.replicate l.length false := by
  intro l
  induction l with
  | nil => intro prev _; rfl
  | cons y ys ih =>
    intro prev h
    have hy : y.2 < goal := h y (List.mem_cons_self y ys)
    have hflag : (decide (goal ≤ y.2) && decide (y.1 = prev.1 + 1)) = false := by
      simp [Nat.not_le_of_lt hy]
    simp only [flagsAux, List.length_cons, List.replicate_succ, hflag]
    exact congrArg (List.cons false) (ih y (fun x hx => h x (List.mem_cons_of_mem y hx)))

lemma cumsumFrom_replicate_false (acc n : Nat) :
    cumsumFrom acc (List.replicate n false) = List.replicate n acc := by
  induction n with
  | zero => rfl
  | succ m ih => simp [List.replicate_succ, cumsumFrom, ih]

lemma foldl_max_replicate_zero (n : Nat) :
    (List.replicate n (0 : Nat)).foldl max 0 = 0 := by
  induction n with
  | zero => rfl
  | succ m ih => simpa [List.replicate_succ] using ih

lemma valAt_nil (d : Nat) : valAt [] d = 0 := rfl

lemma valAt_cons (q : Nat × Nat) (l : List (Nat × Nat)) (d : Nat) :
    valAt (q :: l) d = (if q.1 = d then q.2 else 0) + valAt l d := by
  by_cases h : q.1 = d <;> simp [valAt, List.filter_cons, h]

lemma upsert_cons_eq (q : Nat × Nat) (qs : List (Nat × Nat)) (d p : Nat) (h : q.1 = d) :
    upsert (q :: qs) d p = (q.1, q.2 + p) :: qs := by
  simp [upsert, h]

lemma upsert_cons_ne (q : Nat × Nat) (qs : List (Nat × Nat)) (d p : Nat) (h : ¬q.1 = d) :
    upsert (q :: qs) d p = q :: upsert qs d p := by
  simp [upsert, h]

lemma valAt_upsert (d p d' : Nat) :
    ∀ acc : List (Nat × Nat),
      valAt (upsert acc d p) d' = valAt acc d' + (if d = d' then p else 0) := by
  intro acc
  induction acc with
  | nil => simp [upsert, valAt_cons, valAt_nil]
  | cons q qs ih =>
    by_cases hq : q.1 = d
    · rw [upsert_cons_eq q qs d p hq, valAt_cons, valAt_cons]
      show (if q.1 = d' then q.2 + p else 0) + valAt qs d'
          = (if q.1 = d' then q.2 else 0) + valAt qs d' + (if d = d' then p else 0)
      subst hq
      split_ifs <;> omega
    · rw [upsert_cons_ne q qs d p hq, valAt_cons, valAt_cons, ih]
      omega

lemma mem_datesOf_upsert (d p d' : Nat) :
    ∀ acc : List (Nat × Nat),
      (d' ∈ datesOf (upsert acc d p) ↔ d' ∈ datesOf acc ∨ d' = d) := by
  intro acc
  induction acc with
  | nil => simp [upsert, datesOf]
  | cons q qs ih =>
    by_cases hq : q.1 = d
    · rw [upsert_cons_eq q qs d p hq]
      subst hq
      simp only [datesOf, List.map_cons, List.mem_cons]
      show d' = q.1 ∨ d' ∈ List.map Prod.fst qs ↔ (d' = q.1 ∨ d' ∈ List.map Prod.fst qs) ∨ d' = q.1
      tauto
    · rw [upsert_cons_ne q qs d p hq]
      simp only [datesOf, List.map_cons, List.mem_cons] at ih ⊢
      rw [ih]
      tauto

lemma nodup_datesOf_upsert (d p : Nat) :
    ∀ acc : List (Nat × Nat),
      (datesOf acc).Nodup → (datesOf (upsert acc d p)).Nodup := by
  intro acc
  induction acc with
  | nil => simp [upsert, datesOf]
  | cons q qs ih =>
    intro hnd
    simp only [datesOf, List.map_cons, List.nodup_cons] at hnd
    by_cases hq : q.1 = d
    · rw [upsert_cons_eq q qs d p hq]
      simp only [datesOf, List.map_cons, List.nodup_cons]
      exact ⟨hnd.1, hnd.2⟩
    · rw [upsert_cons_ne q qs d p hq]
      simp only [datesOf, List.map_cons, List.nodup_cons]
      refine ⟨?_, ih hnd.2⟩
      intro hmem
      rcases (mem_datesOf_upsert d p q.1 qs).mp hmem with h1 | h1
      · exact hnd.1 h1
      · exact hq h1

lemma valAt_groupAux (d : Nat) :
    ∀ (rows acc : List (Nat × Nat)),
      valAt (rows.foldl (fun a r => upsert a r.1 r.2) acc) d = valAt acc d + valAt rows d := by
  intro rows
  induction rows with
  | nil => intro acc; simp [valAt_nil]
  | cons r rs ih =>
    intro acc
    rw [List.foldl_cons, ih (upsert acc r.1 r.2), valAt_upsert, valAt_cons]
    by_cases h : r.1 = d
    · subst h; simp only [if_pos rfl]; omega
    · rw [if_neg h]
      omega

lemma mem_datesOf_groupAux (d : Nat) :
    ∀ (rows acc : List (Nat × Nat)),
      (d ∈ datesOf (rows.foldl (fun a r => upsert a r.1 r.2) acc) ↔
        d ∈ datesOf acc ∨ d ∈ datesOf rows) := by
  intro rows
  induction rows with
  | nil => intro acc; simp [datesOf]
  | cons r rs ih =>
    intro acc
    rw [List.foldl_cons, ih (upsert acc r.1 r.2), mem_datesOf_upsert]
    have hcons : d ∈ datesOf (r :: rs) ↔ d = r.1 ∨ d ∈ datesOf rs := by
      simp [datesOf]
    rw [hcons]
    tauto

lemma nodup_datesOf_groupAux :
    ∀ (rows acc : List (Nat × Nat)),
      (datesOf acc).Nodup → (datesOf (rows.foldl (fun a r => upsert a r.1 r.2) acc)).Nodup := by
  intro rows
  induction rows with
  | nil => intro acc h; exact h
  | cons r rs ih => intro acc h; exact ih _ (nodup_datesOf_upsert r.1 r.2 acc h)

lemma valAt_eq_zero_of_not_mem (d : Nat) :
    ∀ l : List (Nat × Nat), d ∉ datesOf l → valAt l d = 0 := by
  intro l
  induction l with
  | nil => intro _; rfl
  | cons q qs ih =>
    intro h
    simp only [datesOf, List.map_cons, List.mem_cons] at h
    push_neg at h
    rw [valAt_cons, if_neg (fun he => h.1 he.symm), ih (by simpa [datesOf] using h.2)]

lemma snd_eq_valAt_of_nodup :
    ∀ l : List (Nat × Nat), (datesOf l).Nodup → ∀ q ∈ l, q.2 = valAt l q.1 := by
  intro l
  induction l with
  | nil => intro _ q hq; cases hq
  | cons a as ih =>
    intro hnd q hq
    simp only [datesOf, List.map_cons, List.nodup_cons] at hnd
    rcases List.mem_cons.mp hq with rfl | hq'
    · rw [valAt_cons, if_pos rfl, valAt_eq_zero_of_not_mem q.1 as hnd.1]
      omega
    · have ha : a.1 ≠ q.1 := fun he => hnd.1 (he ▸ List.mem_map_of_mem Prod.fst hq')
      rw [valAt_cons, if_neg ha]
      simpa using ih hnd.2 q hq'

lemma rows_isEmpty_false {l : RawLog} (h : l.rows ≠ []) : l.rows.isEmpty = false := by
  cases hr : l.rows with
  | nil => exact absurd hr h
  | cons a t => rfl

lemma meanQ_246 : meanQ [2, 4, 6] = 4 := by
  norm_num [meanQ]

lemma stats_eval : (get_daily_stats rawLogW).2 = some statsW := by
  have hg : group_by_date_sum (parsedRows rawLogW) = [(1, 2), (2, 4), (3, 6)] := by decide
  have hemp : rawLogW.rows.isEmpty = false := by decide
  simp only [get_daily_stats, hemp, Bool.false_eq_true, if_false, hg, Option.some.injEq,
    statsW, List.map_cons, List.map_nil, Stats.mk.injEq]
  exact ⟨by decide, meanQ_246, meanQ_246, trivial⟩

lemma flatten_map_singleton {α β : Type} (g : α → β) :
    ∀ (l : List α) (f : α → List β), (∀ a ∈ l, f a = [g a]) →
      (l.map f).flatten = l.map g := by
  intro l
  induction l with
  | nil => intro f _; rfl
  | cons a as ih =>
    intro f h
    simp only [List.map_cons, List.flatten_cons, h a (List.mem_cons_self a as),
      ih f (fun x hx => h x (List.mem_cons_of_mem a hx)), List.singleton_append]

lemma year_of_mem_allDays {y : Nat} {dd : CDate} (h : dd ∈ allDaysOfYear y) :
    dd.year = y := by
  simp only [allDaysOfYear, List.mem_map, List.mem_range] at h
  obtain ⟨i, _, rfl⟩ := h
  rfl

lemma rowMatches_single (d0 dd : CDate) (p : Nat) (hyy : dd.year = d0.year) :
    rowMatches dd (d0, p) = decide (d0 = dd) := by
  by_cases h : d0 = dd
  · subst h
    simp [rowMatches]
  · have hdoy : d0.doy ≠ dd.doy := by
      intro he
      apply h
      cases d0
      cases dd
      simp_all
    simp [rowMatches, h, hdoy]

lemma mergedRows_single (y : Nat) (d0 : CDate) (p : Nat) (hy : d0.year = y) :
    mergedRows y [(d0, p)] = (allDaysOfYear y).map (cellFor d0 p) := by
  unfold mergedRows
  apply flatten_map_singleton
  intro dd hdd
  have hyy : dd.year = d0.year := by rw [year_of_mem_allDays hdd, hy]
  have hfil : List.filter (rowMatches dd) [(d0, p)]
      = if d0 = dd then [(d0, p)] else [] := by
    rw [List.filter_cons]
    by_cases h : d0 = dd
    · rw [rowMatches_single d0 dd p hyy]
      simp [h]
    · rw [rowMatches_single d0 dd p hyy]
      simp [h]
  rw [hfil]
  by_cases h : d0 = dd
  · subst h
    simp [cellFor]
  · simp [cellFor, h]

lemma nodup_allDays (y : Nat) : (allDaysOfYear y).Nodup := by
  refine List.Nodup.map ?_ (List.nodup_range _)
  intro i j hij
  have hd : i + 1 = j + 1 := congrArg CDate.doy hij
  omega

lemma length_allDays (y : Nat) : (allDaysOfYear y).length = daysInYear y := by
  simp [allDaysOfYear]

lemma mem_allDays {y : Nat} {d : CDate} (hy : d.year = y) (h1 : 1 ≤ d.doy)
    (h2 : d.doy ≤ daysInYear y) : d ∈ allDaysOfYear y := by
  simp only [allDaysOfYear, List.mem_map, List.mem_range]
  refine ⟨d.doy - 1, by omega, ?_⟩
  obtain ⟨yy, dd⟩ := d
  have hyy : yy = y := hy
  subst hyy
  have hdd : dd - 1 + 1 = dd := by
    have h1' : 1 ≤ dd := h1
    omega
  rw [CDate.mk.injEq]
  exact ⟨rfl, hdd⟩

lemma pages_cellFor_ne (d0 : CDate) (p : Nat) (dd : CDate) (h : d0 ≠ dd) :
    (cellFor d0 p dd).pages = 0 := by
  simp [cellFor, h]

lemma filter_nz_not_mem (d0 : CDate) (p : Nat) :
    ∀ l : List CDate, d0 ∉ l →
      (l.map (cellFor d0 p)).filter (fun c => c.pages != 0) = [] := by
  intro l
  induction l with
  | nil => intro _; rfl
  | cons a as ih =>
    intro h
    have hne : d0 ≠ a := fun he => h (he ▸ List.mem_cons_self a as)
    have hz := pages_cellFor_ne d0 p a hne
    simp only [List.map_cons, List.filter_cons, hz]
    simpa using ih (fun hm => h (List.mem_cons_of_mem a hm))

lemma filter_nz_map (d0 : CDate) (p : Nat) (hp : 0 < p) :
    ∀ l : List CDate, l.Nodup → d0 ∈ l →
      (l.map (cellFor d0 p)).filter (fun c => c.pages != 0)
        = [⟨isoWeek d0, weekdayOf d0, p⟩] := by
  intro l
  induction l with
  | nil => intro _ hm; cases hm
  | cons a as ih =>
    intro hnd hm
    rw [List.nodup_cons] at hnd
    rcases List.mem_cons.mp hm with rfl | hm'
    · have hcell : cellFor d0 p d0 = ⟨isoWeek d0, weekdayOf d0, p⟩ := by
        simp [cellFor]
      have hpp : ((⟨isoWeek d0, weekdayOf d0, p⟩ : HeatCell).pages != 0) = true := by
        simpa using Nat.pos_iff_ne_zero.mp hp
      simp only [List.map_cons, List.filter_cons, hcell, hpp, if_true]
      rw [filter_nz_not_mem d0 p as hnd.1]
    · have hne : d0 ≠ a := by
        intro he
        exact hnd.1 (he ▸ hm')
      have hz := pages_cellFor_ne d0 p a hne
      simp only [List.map_cons, List.filter_cons, hz]
      simpa using ih hnd.2 hm'

lemma filter_z_not_mem (d0 : CDate) (p : Nat) :
    ∀ l : List CDate,  d0 ∉ l →
      ((l.map (cellFor d0 p)).filter (fun c => c.pages == 0)).length = l.length := by
  intro l
  induction l with
  | nil => intro _; rfl
  | cons a as ih =>
    intro h
    have hne : d0 ≠ a := fun he => h (he ▸ List.mem_cons_self a as)
    have hz := pages_cellFor_ne d0 p a hne
    simp only [List.map_cons, List.filter_cons, hz]
    simp only [List.length_cons]
    have := ih (fun hm => h (List.mem_cons_of_mem a hm))
    simp_all

lemma filter_z_map (d0 : CDate) (p : Nat) (hp : 0 < p) :
    ∀ l : List CDate, l.Nodup → d0 ∈ l →
      ((l.map (cellFor d0 p)).filter (fun c => c.pages == 0)).length = l.length - 1 := by
  intro l
  induction l with
  | nil => intro _ hm; cases hm
  | cons a as ih =>
    intro hnd hm
    rw [List.nodup_cons] at hnd
    rcases List.mem_cons.mp hm with rfl | hm'
    · have hcell : cellFor d0 p d0 = ⟨isoWeek d0, weekdayOf d0, p⟩ := by
        simp [cellFor]
      have hpp : ((⟨isoWeek d0, weekdayOf d0, p⟩ : HeatCell).pages == 0) = false := by
        simpa using Nat.pos_iff_ne_zero.mp hp
      simp only [List.map_cons, List.filter_cons, hcell, hpp]
      simpa using filter_z_not_mem d0 p as hnd.1
    · have hne : d0 ≠ a := by
        intro he
        exact hnd.1 (he ▸ hm')
      have hz := pages_cellFor_ne d0 p a hne
      simp only [List.map_cons, List.filter_cons, hz]
      have hlen := ih hnd.2 hm'
      have hpos : 1 ≤ as.length := by
        cases as with
        | nil => cases hm'
        | cons b bs => simp
      simp_all

/-! ## Claim theorems, counterexamples and witnesses -/

/-- C1: on a goal-met day, a gap day with the goal missed, and another
goal-met day (runs A = 1 and B = 1 around one gap), `calculate_streak` with
goal 10 returns current = 2 and longest = 2, not the claimed
current = B = 1 and longest = max(A,B) = 1: the cumulative-sum streak column
never resets at a gap, and both returned values carry an unconditional
increment. -/
theorem calculate_streak_gap_eval :
    calculate_streak [(100, 10), (101, 0), (102, 10)] 10 = (2, 2) := by decide

/-- C2 counterexample: a one-day series whose only (hence final) day reads
5 pages against a goal of 10 yields a current streak of 1, not the claimed
0, because the function adds one to the reset value unconditionally. -/
theorem current_streak_not_zero_cex :
    (calculate_streak [(100, 5)] 10).1 ≠ 0 := by decide

/-- C2 amended: for every non-empty date-sorted series whose final day's
pages are strictly below the goal, `calculate_streak` reports a current
streak of exactly one (the reset value zero plus the function's
unconditional increment). -/
theorem current_streak_one_of_last_below_goal (df : List (Nat × Nat)) (goal : Nat)
    (hne : df ≠ []) (hsorted : List.Sorted (fun a b : Nat × Nat => a.1 ≤ b.1) df)
    (hlast : (df.getLast hne).2 < goal) :
    (calculate_streak df goal).1 = 1 := by
  have hs : sortByDate df = df := hsorted.insertionSort_eq
  simp only [calculate_streak, hs]
  rw [List.getLast?_eq_getLast _ hne]
  simp [Nat.not_le_of_lt hlast]

theorem current_streak_one_witness :
    (calculate_streak [(100, 5)] 10).1 = 1 :=
  current_streak_one_of_last_below_goal [(100, 5)] 10 (by decide) (by decide) (by decide)

/-- C9: on every non-empty series both values returned by
`calculate_streak` are at least one, and when no day meets the goal the
function returns current = 1 and longest = 1; it never reports a zero-day
longest streak. -/
theorem calculate_streak_never_zero (df : List (Nat × Nat)) (goal : Nat) (h : df ≠ []) :
    1 ≤ (calculate_streak df goal).1 ∧ 1 ≤ (calculate_streak df goal).2 ∧
    ((∀ x ∈ df, x.2 < goal) → calculate_streak df goal = (1, 1)) := by
  refine ⟨Nat.le_add_left 1 _, Nat.le_add_left 1 _, ?_⟩
  intro hall
  have hperm : (sortByDate df).Perm df := List.perm_insertionSort _ df
  have hs : ∀ x ∈ sortByDate df, x.2 < goal := fun x hx => hall x (hperm.mem_iff.mp hx)
  have hne : sortByDate df ≠ [] := by
    intro hnil
    have hlen := hperm.length_eq
    rw [hnil] at hlen
    exact h (List.eq_nil_of_length_eq_zero hlen.symm)
  obtain ⟨a, t, hat⟩ : ∃ a t, sortByDate df = a :: t := by
    cases hsd : sortByDate df with
    | nil => exact absurd hsd hne
    | cons a t => exact ⟨a, t, rfl⟩
  have hflags : streakFlags goal (sortByDate df) = List.replicate (t.length + 1) false := by
    rw [hat]
    simp only [streakFlags, List.replicate_succ]
    have ht : ∀ x ∈ t, x.2 < goal := fun x hx => hs x (hat ▸ List.mem_cons_of_mem a hx)
    exact congrArg (List.cons false) (flagsAux_all_false goal t a ht)
  have hcs : streakCol goal df = List.replicate (t.length + 1) (0 : Nat) := by
    simp only [streakCol, hflags, cumsumFrom_replicate_false]
  have hlastlt : ((sortByDate df).getLast hne).2 < goal := hs _ (List.getLast_mem hne)
  simp only [calculate_streak]
  rw [List.getLast?_eq_getLast _ hne, hcs, foldl_max_replicate_zero]
  simp [Nat.not_le_of_lt hlastlt]

theorem calculate_streak_never_zero_witness :
    calculate_streak [(100, 3)] 10 = (1, 1) :=
  (calculate_streak_never_zero [(100, 3)] 10 (by decide)).2.2 (by decide)

/-- C4: every row of the aggregated series carries the sum of the pages of
all input rows sharing its date and a date that occurs in the input, the
series has no duplicate dates, and every input date occurs in the series. -/
theorem group_by_date_sum_correct (rows : List (Nat × Nat)) (q : Nat × Nat)
    (hq : q ∈ group_by_date_sum rows) :
    q.2 = valAt rows q.1 ∧ q.1 ∈ datesOf rows ∧
    (datesOf (group_by_date_sum rows)).Nodup ∧
    (∀ d ∈ datesOf rows, d ∈ datesOf (group_by_date_sum rows)) := by
  have hperm : (group_by_date_sum rows).Perm (groupPairs rows) :=
    List.perm_insertionSort _ _
  have hpermd : (datesOf (group_by_date_sum rows)).Perm (datesOf (groupPairs rows)) :=
    hperm.map Prod.fst
  have hndg : (datesOf (groupPairs rows)).Nodup :=
    nodup_datesOf_groupAux rows [] (by simp [datesOf])
  have hq' : q ∈ groupPairs rows := hperm.mem_iff.mp hq
  refine ⟨?_, ?_, ?_, ?_⟩
  · have := snd_eq_valAt_of_nodup (groupPairs rows) hndg q hq'
    rwa [show valAt (groupPairs rows) q.1 = valAt rows q.1 by
      simpa [groupPairs, valAt_nil] using valAt_groupAux q.1 rows []] at this
  · have : q.1 ∈ datesOf (groupPairs rows) := List.mem_map_of_mem Prod.fst hq'
    rcases (mem_datesOf_groupAux q.1 rows []).mp this with h0 | h0
    · simp [datesOf] at h0
    · exact h0
  · exact hpermd.nodup_iff.mpr hndg
  · intro d hd
    have : d ∈ datesOf (groupPairs rows) :=
      (mem_datesOf_groupAux d rows []).mpr (Or.inr hd)
    exact hpermd.mem_iff.mpr this

theorem group_by_date_sum_witness :
    ((3, 12) : Nat × Nat).2 = valAt [(3, 5), (9, 1), (3, 7)] 3 ∧
    (3 : Nat) ∈ datesOf [(3, 5), (9, 1), (3, 7)] ∧
    (datesOf (group_by_date_sum [(3, 5), (9, 1), (3, 7)])).Nodup ∧
    (∀ d ∈ datesOf [(3, 5), (9, 1), (3, 7)],
      d ∈ datesOf (group_by_date_sum [(3, 5), (9, 1), (3, 7)])) :=
  group_by_date_sum_correct [(3, 5), (9, 1), (3, 7)] (3, 12) (by decide)

/-- C5: for every non-empty log the reported trailing mean is the mean of
the last `min 7 n` rows of the grouped pages column (`n` the number of
distinct days); on the three-day series with pages `[2, 4, 6]` it equals
`4` and coincides with the full mean. -/
theorem avg_last_week_is_tail_mean (l : RawLog) (st : Stats)
    (hne : l.rows ≠ []) (hst : (get_daily_stats l).2 = some st) :
    st.avg_pages_last_week = meanQ (lastN 7 (st.grouped_log.map Prod.snd)) ∧
    (lastN 7 (st.grouped_log.map Prod.snd)).length = min 7 st.grouped_log.length ∧
    (l.rows = [(DateVal.raw 1, 2), (DateVal.raw 2, 4), (DateVal.raw 3, 6)] →
      st.avg_pages_last_week = 4 ∧ st.avg_pages_per_day = 4) := by
  have hemp := rows_isEmpty_false hne
  simp only [get_daily_stats, hemp, Bool.false_eq_true, if_false, Option.some.injEq] at hst
  subst hst
  refine ⟨rfl, ?_, ?_⟩
  · simp only [lastN, List.length_drop, List.length_map]
    omega
  · intro hr
    have hpr : parsedRows l = [(1, 2), (2, 4), (3, 6)] := by
      simp [parsedRows, hr, parseCell]
    have hg : group_by_date_sum [(1, 2), (2, 4), (3, 6)] = [(1, 2), (2, 4), (3, 6)] := by
      decide
    simp only [hpr, hg]
    exact ⟨meanQ_246, meanQ_246⟩

theorem avg_last_week_witness :
    statsW.avg_pages_last_week = meanQ (lastN 7 (statsW.grouped_log.map Prod.snd)) ∧
    (lastN 7 (statsW.grouped_log.map Prod.snd)).length = min 7 statsW.grouped_log.length ∧
    (rawLogW.rows = [(DateVal.raw 1, 2), (DateVal.raw 2, 4), (DateVal.raw 3, 6)] →
      statsW.avg_pages_last_week = 4 ∧ statsW.avg_pages_per_day = 4) :=
  avg_last_week_is_tail_mean rawLogW statsW (by decide) stats_eval

/-- C10: `get_daily_stats` mutates its input frame: afterwards the date
column holds the parsed calendar-date objects (same dates, new
representation), the pages column and the row count are unchanged, and
whenever some stored date cell was not already a parsed object the frame
has genuinely changed. -/
theorem get_daily_stats_mutates_date_column (l : RawLog) (h : l.rows ≠ []) :
    ((get_daily_stats l).1).rows.map Prod.snd = l.rows.map Prod.snd ∧
    ((get_daily_stats l).1).rows.length = l.rows.length ∧
    ((get_daily_stats l).1).rows.map Prod.fst
      = l.rows.map (fun r => DateVal.parsed (parseCell r.1)) ∧
    ((get_daily_stats l).1).rows.map (fun r => parseCell r.1)
      = l.rows.map (fun r => parseCell r.1) ∧
    (l.rows.map Prod.fst ≠ l.rows.map (fun r => DateVal.parsed (parseCell r.1)) →
      (get_daily_stats l).1 ≠ l) := by
  have hemp := rows_isEmpty_false h
  have h1 : (get_daily_stats l).1
      = ⟨l.rows.map (fun r => (DateVal.parsed (parseCell r.1), r.2))⟩ := by
    simp [get_daily_stats, hemp]
  rw [h1]
  refine ⟨?_, ?_, ?_, ?_, ?_⟩
  · simp [List.map_map, Function.comp_def]
  · simp
  · simp [List.map_map, Function.comp_def]
  · simp [List.map_map, Function.comp_def, parseCell]
  · intro hdiff heq
    apply hdiff
    have hrows : l.rows.map (fun r => (DateVal.parsed (parseCell r.1), r.2)) = l.rows := by
      have := congrArg RawLog.rows heq
      simpa using this
    calc l.rows.map Prod.fst
        = (l.rows.map (fun r => (DateVal.parsed (parseCell r.1), r.2))).map Prod.fst := by
          rw [hrows]
      _ = l.rows.map (fun r => DateVal.parsed (parseCell r.1)) := by
          simp [List.map_map, Function.comp_def]

theorem get_daily_stats_mutates_witness :
    ((get_daily_stats rawLogW).1).rows.map Prod.snd = rawLogW.rows.map Prod.snd ∧
    ((get_daily_stats rawLogW).1).rows.length = rawLogW.rows.length ∧
    ((get_daily_stats rawLogW).1).rows.map Prod.fst
      = rawLogW.rows.map (fun r => DateVal.parsed (parseCell r.1)) ∧
    ((get_daily_stats rawLogW).1).rows.map (fun r => parseCell r.1)
      = rawLogW.rows.map (fun r => parseCell r.1) ∧
    (rawLogW.rows.map Prod.fst ≠ rawLogW.rows.map (fun r => DateVal.parsed (parseCell r.1)) →
      (get_daily_stats rawLogW).1 ≠ rawLogW) :=
  get_daily_stats_mutates_date_column rawLogW (by decide)

/-- C6: `create_heatmap_view` does mutate the `DailySeries` it is given:
on a one-row grouped series for 2026-03-01 (day 60 of the non-leap target
year 2026) the frame coming back out of the call has the three derived key
columns assigned and is no longer equal to the input frame. -/
theorem create_heatmap_view_mutates_eval :
    (create_heatmap_view 2026 ⟨[HDateCell.dateObj ⟨2026, 60⟩], [12], none, none, none⟩).1
      ≠ ⟨[HDateCell.dateObj ⟨2026, 60⟩], [12], none, none, none⟩ ∧
    (create_heatmap_view 2026
        ⟨[HDateCell.dateObj ⟨2026, 60⟩], [12], none, none, none⟩).1.day_of_year ≠ none := by
  constructor
  · decide
  · decide

/-- C7: for a non-leap target year and a series holding exactly one logged
day of that year with positive pages, the merged heatmap grid has 365
cells, its only non-zero cell sits at the (ISO week, weekday) position of
the logged date carrying its pages, and the other 364 cells are zero. -/
theorem heatmap_single_day (y : Nat) (d : CDate) (p : Nat)
    (hleap : isLeap y = false) (hy : d.year = y)
    (h1 : 1 ≤ d.doy) (h2 : d.doy ≤ 365) (hp : 0 < p) :
    ((create_heatmap_view y ⟨[HDateCell.dateObj d], [p], none, none, none⟩).2).length = 365 ∧
    ((create_heatmap_view y ⟨[HDateCell.dateObj d], [p], none, none, none⟩).2).filter
        (fun c => c.pages != 0) = [⟨isoWeek d, weekdayOf d, p⟩] ∧
    (((create_heatmap_view y ⟨[HDateCell.dateObj d], [p], none, none, none⟩).2).filter
        (fun c => c.pages == 0)).length = 364 := by
  have hdays : daysInYear y = 365 := by rw [daysInYear, hleap]; rfl
  have hgrid : (create_heatmap_view y ⟨[HDateCell.dateObj d], [p], none, none, none⟩).2
      = (allDaysOfYear y).map (cellFor d p) := by
    show mergedRows y [(d, p)] = _
    exact mergedRows_single y d p hy
  have hmem : d ∈ allDaysOfYear y := mem_allDays hy h1 (by omega)
  have hnd := nodup_allDays y
  refine ⟨?_, ?_, ?_⟩
  · rw [hgrid, List.length_map, length_allDays, hdays]
  · rw [hgrid]
    exact filter_nz_map d p hp _ hnd hmem
  · rw [hgrid, filter_z_map d p hp _ hnd hmem, length_allDays, hdays]

theorem heatmap_single_day_witness :
    ((create_heatmap_view 2026
        ⟨[HDateCell.dateObj ⟨2026, 60⟩], [12], none, none, none⟩).2).length = 365 ∧
    ((create_heatmap_view 2026
        ⟨[HDateCell.dateObj ⟨2026, 60⟩], [12], none, none, none⟩).2).filter
        (fun c => c.pages != 0)
      = [⟨isoWeek ⟨2026, 60⟩, weekdayOf ⟨2026, 60⟩, 12⟩] ∧
    (((create_heatmap_view 2026
        ⟨[HDateCell.dateObj ⟨2026, 60⟩], [12], none, none, none⟩).2).filter
        (fun c => c.pages == 0)).length = 364 :=
  heatmap_single_day 2026 ⟨2026, 60⟩ 12 (by decide) (by decide) (by decide) (by decide)
    (by decide)

/-- C3: a future-dated submission is rejected with the error outcome and
leaves both the in-memory log and the persisted file unchanged; a
submission dated today or earlier succeeds and appends exactly the
(date, pages) row to the in-memory log, the file receiving that same
updated log. -/
theorem daily_log_form_correct (st : AppState) (today log_date pages : Nat) :
    (today < log_date →
      daily_log_form st today log_date pages = (st, SubmitResult.errorFutureDate)) ∧
    (log_date ≤ today →
      daily_log_form st today log_date pages =
        ({ daily_log := st.daily_log ++ [(log_date, pages)],
           log_file := st.daily_log ++ [(log_date, pages)] }, SubmitResult.success)) := by
  constructor
  · intro hfut
    rw [daily_log_form, if_neg (Nat.not_le_of_lt hfut)]
  · intro hpast
    rw [daily_log_form, if_pos hpast]
    rfl

theorem daily_log_form_witness :
    daily_log_form ⟨[(5, 3)], [(5, 3)]⟩ 10 12 4
      = (⟨[(5, 3)], [(5, 3)]⟩, SubmitResult.errorFutureDate) :=
  (daily_log_form_correct ⟨[(5, 3)], [(5, 3)]⟩ 10 12 4).1 (by decide)

/-- C8: a non-200 status or an empty `docs` array makes the lookup return
`None`; the form handler then shows the not-found warning and leaves every
prior search result in the session untouched. -/
theorem search_not_found (sess : SearchSession) (t : String) (resp : ApiResponse)
    (h : resp.status_code ≠ 200 ∨ resp.docs = []) :
    search_book_info t resp = none ∧
    handle_search sess t resp = (sess, SearchOutcome.notFoundWarning) := by
  have hnone : search_book_info t resp = none := by
    rcases h with h | h
    · rw [search_book_info, if_neg h]
    · rw [search_book_info, h]
      split <;> rfl
  exact ⟨hnone, by rw [handle_search, hnone]⟩

theorem search_not_found_witness :
    search_book_info titleW ⟨404, []⟩ = none ∧
    handle_search sessW titleW ⟨404, []⟩ = (sessW, SearchOutcome.notFoundWarning) :=
  search_not_found sessW titleW ⟨404, []⟩ (Or.inl (by decide))

end BookTracker
